import Mathlib

/-!
Verification development for the water-level detector processing pipeline
(`examples/processing/water_level.py`).

The Python code is shallowly embedded below:
* amplitudes, thresholds, distances and configuration floats become `ℚ`;
* a threshold entry that may be NaN (masked) becomes `Option ℚ` (`none` = NaN);
* Python float comparisons against NaN (which are `False`) are modelled by
  `gtOpt` / `leOpt` returning `false` on `none`;
* peak indices are Python `int`s and become `ℤ`;
* the mutable `Processor` object becomes explicit state passing on `ProcState`;
* code that raises becomes `Except String`.

All list accesses mirror the source's guarded indexing; `getD` defaults are
never reachable under the guards the source itself establishes.
-/

namespace WaterLevel

/-- Python comparison `x > t` where `t` may be NaN: any comparison with NaN is `False`. -/
def gtOpt (x : ℚ) (t : Option ℚ) : Bool :=
  match t with
  | none => false
  | some v => decide (v < x)

/-- Python comparison `x <= t` where `t` may be NaN: any comparison with NaN is `False`. -/
def leOpt (x : ℚ) (t : Option ℚ) : Bool :=
  match t with
  | none => false
  | some v => decide (x ≤ v)

/-- Python 3 `round` (also `np.round`) on an exact rational: round half to even. -/
def pyRound (x : ℚ) : ℤ :=
  if x - x.floor < 1/2 then x.floor
  else if (1:ℚ)/2 < x - x.floor then x.floor + 1
  else if x.floor % 2 = 0 then x.floor else x.floor + 1

theorem Rat.floor_eq_intFloor (x : ℚ) : x.floor = ⌊x⌋ := by
  rw [Rat.floor_def, Rat.floor_def']

/-- Arithmetic mean `np.mean` of a list of integers, as an exact rational. -/
def listMean (l : List ℤ) : ℚ :=
  ((l.sum : ℤ) : ℚ) / (l.length : ℚ)

/-- Maximum of a list of naturals (`0` on the empty list). -/
def listMax (l : List Nat) : Nat :=
  l.foldr max 0

/-- Index semantics of `np.argmax` on a nonempty array: the first index attaining
the maximum value.  (`np.argmax` raises on an empty array; the only caller below
guards that case by its `≤ 1` test, under which the returned `0` is never used
to index the list.) -/
def npArgmax (l : List Nat) : Nat :=
  l.findIdx (fun c => c = listMax l)

/-! ## Processor.find_first_point_above_threshold -/

/-- Translation of `Processor.find_first_point_above_threshold`: `None` if the
threshold is entirely NaN or no point is above it, otherwise
`np.argmax(sweep > threshold)`, i.e. the first index with `sweep[i] > threshold[i]`. -/
def find_first_point_above_threshold (sweep : List ℚ) (threshold : List (Option ℚ)) :
    Option Nat :=
  if threshold.all (fun t => t.isNone) then none
  else
    let pointsAbove := List.zipWith gtOpt sweep threshold
    if pointsAbove.any (fun b => b) then some (pointsAbove.findIdx (fun b => b))
    else none

/-! ## Processor.find_peaks -/

/-- Translation of the inner `while True` walk of `Processor.find_peaks`: starting
from candidate start `d`, walk `dUpper` to the right while the sweep stays equal to
`sweep[d]` and over threshold.  Returns the found peak index (if any) and the final
value of `d_upper`, from which the outer scan resumes. -/
def peakWalk (sweep : List ℚ) (threshold : List (Option ℚ)) (d dUpper : Nat) :
    Option ℤ × Nat :=
  if _h : sweep.length - 1 ≤ dUpper then (none, dUpper)  -- out of range or on last point
  else if (threshold.getD dUpper none).isNone then (none, dUpper)
  else if leOpt (sweep.getD dUpper 0) (threshold.getD dUpper none) then (none, dUpper)
  else if sweep.getD d 0 < sweep.getD dUpper 0 then (none, dUpper)
  else if sweep.getD dUpper 0 < sweep.getD d 0 then
    (some ((d : ℤ) + (Nat.ceil ((((dUpper - d : ℕ) : ℚ) - 1) / 2) : ℕ)), dUpper)
  else
    peakWalk sweep threshold d (dUpper + 1)
termination_by sweep.length - 1 - dUpper

theorem le_peakWalk_snd (sweep : List ℚ) (threshold : List (Option ℚ)) (d dUpper : Nat) :
    dUpper ≤ (peakWalk sweep threshold d dUpper).2 := by
  unfold peakWalk
  repeat' split
  all_goals
    first
      | exact Nat.le_refl _
      | exact le_trans (Nat.le_succ dUpper) (le_peakWalk_snd sweep threshold d (dUpper + 1))
termination_by sweep.length - 1 - dUpper

/-- Translation of the outer `while d < (N - 1)` scan of `Processor.find_peaks`,
starting at position `d` (the source starts at `d = 1`). -/
def findPeaksLoop (sweep : List ℚ) (threshold : List (Option ℚ)) (d : Nat) : List ℤ :=
  if h : d < sweep.length - 1 then
    if (threshold.getD (d - 1) none).isNone then
      findPeaksLoop sweep threshold (d + 1)       -- skip to when threshold starts
    else if (threshold.getD (d + 1) none).isNone then
      []                                          -- break when threshold ends
    else if leOpt (sweep.getD d 0) (threshold.getD d none) then
      findPeaksLoop sweep threshold (d + 2)       -- current point not over threshold
    else if leOpt (sweep.getD (d - 1) 0) (threshold.getD (d - 1) none) then
      findPeaksLoop sweep threshold (d + 1)       -- previous point not over threshold
    else if sweep.getD d 0 ≤ sweep.getD (d - 1) 0 then
      findPeaksLoop sweep threshold (d + 1)       -- not larger than the previous
    else
      let w := peakWalk sweep threshold d (d + 1)
      (match w.1 with
       | some p => [p]
       | none => []) ++ findPeaksLoop sweep threshold w.2
  else []
termination_by sweep.length - 1 - d
decreasing_by
  · omega
  · omega
  · omega
  · omega
  · have := le_peakWalk_snd sweep threshold d (d + 1)
    omega

/-- Translation of `Processor.find_peaks`. -/
def find_peaks (sweep : List ℚ) (threshold : List (Option ℚ)) : List ℤ :=
  if threshold.all (fun t => t.isNone) then []
  else findPeaksLoop sweep threshold 1

/-! ## Processor.merge_peaks -/

/-- Number of peaks `q` in `merged` with `|q - p| < radius` (counting `p` itself),
as computed by `np.sum(np.abs(np.array(merged_peaks) - p) < merge_max_range)`. -/
def numNeighbors (merged : List ℤ) (p : ℤ) (radius : ℚ) : Nat :=
  (merged.filter (fun q => decide (|((q - p : ℤ) : ℚ)| < radius))).length

/-- Translation of one iteration of the `while True` loop of `Processor.merge_peaks`:
`none` when the loop breaks (`num_neighbors[i_peak] <= 1`), otherwise the merged
list for the next iteration.  Removal with Python `list.remove` (first occurrence
of each value) is modelled by a fold of `List.erase`. -/
def mergeRound (merged : List ℤ) (radius : ℚ) : Option (List ℤ) :=
  let counts := merged.map (fun p => numNeighbors merged p radius)
  let iPeak := npArgmax counts
  if counts.getD iPeak 0 ≤ 1 then none
  else
    let peak := merged.getD iPeak 0
    let peaksToRemove := merged.filter (fun q => decide (|((q - peak : ℤ) : ℚ)| < radius))
    let kept := peaksToRemove.foldl (fun acc p => acc.erase p) merged
    some (List.insertionSort (fun a b => a ≤ b) (kept ++ [pyRound (listMean peaksToRemove)]))

/-- Erasing the first occurrence of every element of `l` that satisfies `p`
leaves exactly the elements not satisfying `p`. -/
theorem foldl_erase_filter {α : Type} [DecidableEq α] (l : List α) (p : α → Bool) :
    (l.filter p).foldl (fun acc x => acc.erase x) l = l.filter (fun x => !(p x)) := by
  have aux : ∀ (rem : List α) (x : α) (acc : List α), (∀ b ∈ rem, p b) → ¬ (p x = true) →
      rem.foldl (fun a b => a.erase b) (x :: acc) = x :: rem.foldl (fun a b => a.erase b) acc := by
    intro rem
    induction rem with
    | nil => intro x acc _ _; rfl
    | cons b t ih =>
      intro x acc hall hx
      have hbx : (x == b) = false := by
        simp only [beq_eq_false_iff_ne]
        intro h
        exact hx (h ▸ hall b (List.mem_cons_self b t))
      simp only [List.foldl_cons, List.erase_cons, hbx, Bool.false_eq_true, if_neg,
        not_false_iff]
      exact ih x (acc.erase b) (fun c hc => hall c (List.mem_cons_of_mem b hc)) hx
  induction l with
  | nil => rfl
  | cons x xs ih =>
    by_cases hx : p x
    · rw [List.filter_cons_of_pos hx, List.filter_cons_of_neg (by simp [hx]),
        List.foldl_cons, List.erase_cons_head]
      exact ih
    · rw [List.filter_cons_of_neg (by simp [hx]), List.filter_cons_of_pos (by simp [hx]),
        aux (xs.filter p) x xs (fun b hb => List.of_mem_filter hb) (by simp [hx]), ih]

/-- Every list splits into the elements satisfying `p` and those not. -/
theorem length_filter_add_length_filter_not {α : Type} (l : List α) (p : α → Bool) :
    (l.filter p).length + (l.filter (fun x => !(p x))).length = l.length := by
  induction l with
  | nil => rfl
  | cons x xs ih =>
    by_cases hx : p x
    · rw [List.filter_cons_of_pos hx, List.filter_cons_of_neg (by simp [hx])]
      simp only [List.length_cons]
      omega
    · rw [List.filter_cons_of_neg (by simp [hx]), List.filter_cons_of_pos (by simp [hx])]
      simp only [List.length_cons]
      omega

theorem mergeRound_length_lt (merged next : List ℤ) (radius : ℚ)
    (h : mergeRound merged radius = some next) : next.length < merged.length := by
  unfold mergeRound at h
  by_cases hc : (merged.map (fun p => numNeighbors merged p radius)).getD
      (npArgmax (merged.map (fun p => numNeighbors merged p radius))) 0 ≤ 1
  · simp only [hc, if_pos] at h
    exact absurd h (by simp)
  · simp only [hc, if_neg, not_false_iff, Option.some.injEq] at h
    set counts := merged.map (fun p => numNeighbors merged p radius) with hcounts
    set i := npArgmax counts with hi
    have hlt : i < counts.length := by
      by_contra hge
      exact hc (by rw [List.getD_eq_default _ _ (le_of_not_lt hge)]; omega)
    set peak := merged.getD i 0 with hpeak
    have hcount : counts.getD i 0 = numNeighbors merged peak radius := by
      rw [hcounts, List.getD_eq_getElem _ _ hlt]
      rw [List.getElem_map]
      congr 1
      rw [hpeak, List.getD_eq_getElem]
    have h2 : 2 ≤ numNeighbors merged peak radius := by omega
    rw [← h]
    have hkept := foldl_erase_filter merged
      (fun q => decide (|((q - peak : ℤ) : ℚ)| < radius))
    rw [List.length_insertionSort, List.length_append, hkept]
    simp only [List.length_cons, List.length_nil]
    have hsplit := length_filter_add_length_filter_not merged
      (fun q => decide (|((q - peak : ℤ) : ℚ)| < radius))
    have : (merged.filter (fun q => decide (|((q - peak : ℤ) : ℚ)| < radius))).length =
        numNeighbors merged peak radius := rfl
    omega

/-- Translation of `Processor.merge_peaks`.  Terminates because every round
removes at least two peaks and appends one. -/
def merge_peaks (merged : List ℤ) (radius : ℚ) : List ℤ :=
  match h : mergeRound merged radius with
  | some next => merge_peaks next radius
  | none => merged
termination_by merged.length
decreasing_by exact mergeRound_length_lt merged next radius h

/-! ## Processor.sort_peaks -/

/-- Members of the `PeakSorting` enum of `ProcessingConfiguration`. -/
inductive PeakSorting
  | STRONGEST
  | CLOSEST
  | STRONGEST_REFLECTOR
  | STRONGEST_FLAT_REFLECTOR
deriving DecidableEq, Repr

/-- Value held by the dynamically typed `self.peak_sorting_method` slot: either a
member of the `PeakSorting` enum, or any other (unknown) value. -/
inductive SortingMethodValue
  | member : PeakSorting → SortingMethodValue
  | other : SortingMethodValue
deriving DecidableEq, Repr

/-- Index-sorting relation: sort positions by key ascending, ties by position.
This is the ordering realised by a stable ascending argsort. -/
def lexLt (q : List ℚ) (i j : Nat) : Prop :=
  q.getD i 0 < q.getD j 0 ∨ (q.getD i 0 = q.getD j 0 ∧ i ≤ j)

instance (q : List ℚ) : DecidableRel (lexLt q) := by
  intro i j
  unfold lexLt
  infer_instance

instance (q : List ℚ) : IsTotal Nat (lexLt q) := by
  constructor
  intro i j
  unfold lexLt
  rcases lt_trichotomy (q.getD i 0) (q.getD j 0) with h | h | h
  · exact Or.inl (Or.inl h)
  · rcases Nat.le_total i j with hij | hij
    · exact Or.inl (Or.inr ⟨h, hij⟩)
    · exact Or.inr (Or.inr ⟨h.symm, hij⟩)
  · exact Or.inr (Or.inl h)

instance (q : List ℚ) : IsTrans Nat (lexLt q) := by
  constructor
  intro i j k hij hjk
  unfold lexLt at hij hjk ⊢
  rcases hij with h1 | ⟨h1, h1idx⟩ <;> rcases hjk with h2 | ⟨h2, h2idx⟩
  · exact Or.inl (h1.trans h2)
  · exact Or.inl (h2 ▸ h1)
  · exact Or.inl (h1 ▸ h2)
  · exact Or.inr ⟨h1.trans h2, h1idx.trans h2idx⟩

/-- Model of `numpy.argsort` on the key list `q`: a permutation of the positions
`0, …, len q − 1` ordering the keys ascending.  `np.argsort` with its default
`kind` (quicksort/introsort) leaves the relative order of equal keys
unspecified — it is documented as not stable — so an executable embedding must
pick some concrete tie order; this one places equal keys in position order
(positions sorted by the linear order `lexLt q`).  Only tie-independent
consequences (the result is a permutation, keys appear in ascending order,
outputs on tie-free inputs) are properties of the program; how ties fall is a
choice of this model. -/
def argsortKey (q : List ℚ) : List Nat :=
  List.insertionSort (lexLt q) (List.range q.length)

/-- Translation of `Processor.sort_peaks`; `r` is the precomputed distance axis
`self.r`.  An unknown sorting method raises `Exception("Unknown peak sorting method")`. -/
def sort_peaks (peak_indexes : List ℤ) (sweep : List ℚ) (r : List ℚ)
    (method : SortingMethodValue) : Except String (List ℤ) :=
  let amp := peak_indexes.map (fun i => sweep.getD i.toNat 0)
  let rp := peak_indexes.map (fun i => r.getD i.toNat 0)
  match method with
  | .member .CLOSEST =>
      .ok ((argsortKey rp).map (fun i => peak_indexes.getD i 0))
  | .member .STRONGEST =>
      .ok ((argsortKey (amp.map (fun a => -a))).map (fun i => peak_indexes.getD i 0))
  | .member .STRONGEST_REFLECTOR =>
      .ok ((argsortKey (List.zipWith (fun a d => -a * d ^ 2) amp rp)).map
        (fun i => peak_indexes.getD i 0))
  | .member .STRONGEST_FLAT_REFLECTOR =>
      .ok ((argsortKey (List.zipWith (fun a d => -a * d) amp rp)).map
        (fun i => peak_indexes.getD i 0))
  | .other => .error "Unknown peak sorting method"

/-- Sort key list used by `sort_peaks` for each policy (`np.argsort` sorts the
quantity ascending, so descending sorts negate the key). -/
def policyKeys (pol : PeakSorting) (peaks : List ℤ) (sweep r : List ℚ) : List ℚ :=
  let amp := peaks.map (fun i => sweep.getD i.toNat 0)
  let rp := peaks.map (fun i => r.getD i.toNat 0)
  match pol with
  | .CLOSEST => rp
  | .STRONGEST => amp.map (fun a => -a)
  | .STRONGEST_REFLECTOR => List.zipWith (fun a d => -a * d ^ 2) amp rp
  | .STRONGEST_FLAT_REFLECTOR => List.zipWith (fun a d => -a * d) amp rp

/-! ## Processor.process -/

/-- Members of the `ThresholdType` enum of `ProcessingConfiguration`. -/
inductive ThresholdType
  | FIXED
  | RECORDED
  | CFAR
deriving DecidableEq, Repr

/-- Threshold determination step of `Processor.process`.  `FIXED` fills the whole
sweep with the fixed level.  `CFAR` calls `self.calculate_cfar_threshold`, which is
commented out in this file, so the attribute lookup raises `AttributeError`; any
other type prints "Unknown thresholding method" and leaves the local `threshold`
unbound, so its first use raises `UnboundLocalError`.  Either way the call aborts
with an error before producing a result. -/
def computeThreshold (ttype : ThresholdType) (fixedLevel : ℚ) (n : Nat) :
    Except String (List (Option ℚ)) :=
  match ttype with
  | .FIXED => .ok (List.replicate n (some fixedLevel))
  | .CFAR => .error "AttributeError: calculate_cfar_threshold"
  | .RECORDED => .error "UnboundLocalError: threshold"

/-- Translation of one history-eviction `while` loop of `Processor.process`: pop
entries from the head of the parallel lists `idx`/`dist` while
`sweep_index - idx[0] > horizon` (the loop condition inspects only `idx`). -/
def evictOld (sweepIndex : ℤ) (horizon : ℚ) : List ℤ → List ℚ → List ℤ × List ℚ
  | i :: is, ds =>
      if horizon < ((sweepIndex - i : ℤ) : ℚ) then evictOld sweepIndex horizon is ds.tail
      else (i :: is, ds)
  | [], ds => ([], ds)

/-- Processing configuration and per-session constants of the `Processor`:
the updateable `ProcessingConfiguration` values read by `process`, the sensor
update rate `f` and the precomputed distance axis `r`. -/
structure Config where
  nbr_average : ℚ
  threshold_type : ThresholdType
  fixed_threshold : ℚ
  peak_sorting : SortingMethodValue
  history_length_s : ℚ
  f : ℚ
  r : List ℚ

/-- Mutable state of the `Processor` object. -/
structure ProcState where
  current_mean_sweep : List ℚ
  last_mean_sweep : List (Option ℚ)   -- initialised to NaN, hence `Option`
  sweeps_since_mean : Nat
  main_peak_hist_sweep_idx : List ℤ
  main_peak_hist_dist : List ℚ
  minor_peaks_hist_sweep_idx : List ℤ
  minor_peaks_hist_dist : List ℚ
  above_thres_hist_sweep_idx : List ℤ
  above_thres_hist_dist : List ℚ
  sweep_index : ℤ
deriving DecidableEq, Repr

/-- Initial `Processor` state for a session with `n` distance bins. -/
def initState (n : Nat) : ProcState :=
  { current_mean_sweep := List.replicate n 0
    last_mean_sweep := List.replicate n none
    sweeps_since_mean := 0
    main_peak_hist_sweep_idx := []
    main_peak_hist_dist := []
    minor_peaks_hist_sweep_idx := []
    minor_peaks_hist_dist := []
    above_thres_hist_sweep_idx := []
    above_thres_hist_dist := []
    sweep_index := 0 }

/-- Result snapshot `out_data` returned by every `process` call. -/
structure OutData where
  sweep : List ℚ
  last_mean_sweep : List (Option ℚ)
  threshold : List (Option ℚ)
  main_peak_hist_sweep_s : List ℚ
  main_peak_hist_dist : List ℚ
  minor_peaks_hist_sweep_s : List ℚ
  minor_peaks_hist_dist : List ℚ
  above_thres_hist_sweep_s : List ℚ
  above_thres_hist_dist : List ℚ
  sweep_index : ℤ
  found_peaks : Option (List ℤ)   -- Python `None` between emissions
deriving DecidableEq, Repr

/-- Fixed physical peak-merge limit `PEAK_MERGE_LIMIT_M` (metres). -/
def PEAK_MERGE_LIMIT_M : ℚ := 5 / 1000

/-- Running-mean update of `Processor.process`:
`current_mean_sweep ← weight·sweep + (1−weight)·current_mean_sweep` with
`weight = 1/(1 + sweeps_since_mean)`. -/
def meanUpd (s : ProcState) (data : List ℚ) : List ℚ :=
  List.zipWith
    (fun x c => (1 / (1 + (s.sweeps_since_mean : ℚ))) * x +
      (1 - 1 / (1 + (s.sweeps_since_mean : ℚ))) * c)
    data s.current_mean_sweep

/-- Peak finding, then (when more than one candidate) merging with radius
`np.round(PEAK_MERGE_LIMIT_M / dr)` and sorting, as in the emission branch of
`Processor.process`. -/
def peaksPostprocess (cfg : Config) (mean : List ℚ) (threshold : List (Option ℚ)) :
    Except String (List ℤ) :=
  let foundPeaks := find_peaks mean threshold
  if 1 < foundPeaks.length then
    let dr := cfg.r.getD 1 0 - cfg.r.getD 0 0
    sort_peaks (merge_peaks foundPeaks ((pyRound (PEAK_MERGE_LIMIT_M / dr) : ℤ) : ℚ))
      mean cfg.r cfg.peak_sorting
  else .ok foundPeaks

/-- State and snapshot produced by the emission branch of `Processor.process`
(history appends, history eviction, accumulator reset), given the processed
peak list `peaks`. -/
def emitStep (cfg : Config) (s : ProcState) (data : List ℚ)
    (threshold : List (Option ℚ)) (peaks : List ℤ) : ProcState × OutData :=
  let mean := meanUpd s data
  let firstAbove := find_first_point_above_threshold mean threshold
  let horizon := cfg.history_length_s * cfg.f
  let mainIdx := if 0 < peaks.length then
      s.main_peak_hist_sweep_idx ++ [s.sweep_index] else s.main_peak_hist_sweep_idx
  let mainDist := if 0 < peaks.length then
      s.main_peak_hist_dist ++ [cfg.r.getD (peaks.getD 0 0).toNat 0]
    else s.main_peak_hist_dist
  let minorIdx := s.minor_peaks_hist_sweep_idx ++
    List.replicate (peaks.length - 1) s.sweep_index
  let minorDist := s.minor_peaks_hist_dist ++
    (peaks.drop 1).map (fun i => cfg.r.getD i.toNat 0)
  let aboveIdx := match firstAbove with
    | some _ => s.above_thres_hist_sweep_idx ++ [s.sweep_index]
    | none => s.above_thres_hist_sweep_idx
  let aboveDist := match firstAbove with
    | some j => s.above_thres_hist_dist ++ [cfg.r.getD j 0]
    | none => s.above_thres_hist_dist
  let mainEv := evictOld s.sweep_index horizon mainIdx mainDist
  let minorEv := evictOld s.sweep_index horizon minorIdx minorDist
  let aboveEv := evictOld s.sweep_index horizon aboveIdx aboveDist
  ({ current_mean_sweep := mean.map (fun _ => 0)   -- current_mean_sweep *= 0
     last_mean_sweep := mean.map some
     sweeps_since_mean := 0
     main_peak_hist_sweep_idx := mainEv.1
     main_peak_hist_dist := mainEv.2
     minor_peaks_hist_sweep_idx := minorEv.1
     minor_peaks_hist_dist := minorEv.2
     above_thres_hist_sweep_idx := aboveEv.1
     above_thres_hist_dist := aboveEv.2
     sweep_index := s.sweep_index + 1 },
   { sweep := data
     last_mean_sweep := mean.map some
     threshold := threshold
     main_peak_hist_sweep_s := mainEv.1.map (fun i => ((i - s.sweep_index : ℤ) : ℚ) / cfg.f)
     main_peak_hist_dist := mainEv.2
     minor_peaks_hist_sweep_s := minorEv.1.map (fun i => ((i - s.sweep_index : ℤ) : ℚ) / cfg.f)
     minor_peaks_hist_dist := minorEv.2
     above_thres_hist_sweep_s := aboveEv.1.map (fun i => ((i - s.sweep_index : ℤ) : ℚ) / cfg.f)
     above_thres_hist_dist := aboveEv.2
     sweep_index := s.sweep_index
     found_peaks := some peaks })

/-- State and snapshot produced by a `Processor.process` call on which no new
averaged sweep is ready: only the accumulator, its counter and the sweep index
change; the snapshot carries the old mean and histories, a freshly computed
threshold and `found_peaks = None`. -/
def noEmitStep (cfg : Config) (s : ProcState) (data : List ℚ)
    (threshold : List (Option ℚ)) : ProcState × OutData :=
  ({ s with
      current_mean_sweep := meanUpd s data
      sweeps_since_mean := s.sweeps_since_mean + 1
      sweep_index := s.sweep_index + 1 },
   { sweep := data
     last_mean_sweep := s.last_mean_sweep
     threshold := threshold
     main_peak_hist_sweep_s := s.main_peak_hist_sweep_idx.map
       (fun i => ((i - s.sweep_index : ℤ) : ℚ) / cfg.f)
     main_peak_hist_dist := s.main_peak_hist_dist
     minor_peaks_hist_sweep_s := s.minor_peaks_hist_sweep_idx.map
       (fun i => ((i - s.sweep_index : ℤ) : ℚ) / cfg.f)
     minor_peaks_hist_dist := s.minor_peaks_hist_dist
     above_thres_hist_sweep_s := s.above_thres_hist_sweep_idx.map
       (fun i => ((i - s.sweep_index : ℤ) : ℚ) / cfg.f)
     above_thres_hist_dist := s.above_thres_hist_dist
     sweep_index := s.sweep_index
     found_peaks := none })

/-- Translation of `Processor.process`.  One call advances the state by one sweep
and returns the new state together with the `out_data` snapshot; exceptions
raised by the Python code (unknown threshold type, unknown sorting method)
become `Except.error`.  Sweeps are assumed to have the session's configured
length, as guaranteed by the sensor client. -/
def process (cfg : Config) (s : ProcState) (data : List ℚ) :
    Except String (ProcState × OutData) :=
  match computeThreshold cfg.threshold_type cfg.fixed_threshold data.length with
  | .error e => .error e
  | .ok threshold =>
    if cfg.nbr_average ≤ ((s.sweeps_since_mean + 1 : ℕ) : ℚ) then
      -- a new averaged sweep is ready for processing
      match peaksPostprocess cfg (meanUpd s data) threshold with
      | .error e => .error e
      | .ok peaks => .ok (emitStep cfg s data threshold peaks)
    else
      .ok (noEmitStep cfg s data threshold)

/-- Run `process` over a list of sweeps, threading the state. -/
def processRun (cfg : Config) (s : ProcState) : List (List ℚ) → Except String ProcState
  | [] => .ok s
  | sw :: rest =>
    match process cfg s sw with
    | .error e => .error e
    | .ok (s2, _) => processRun cfg s2 rest

/-- Concrete one-bin fixed-threshold configuration used by concrete instances:
averaging 3 sweeps, fixed threshold 800. -/
def cfgA : Config :=
  { nbr_average := 3, threshold_type := .FIXED, fixed_threshold := 800,
    peak_sorting := .member .STRONGEST, history_length_s := 10, f := 10, r := [0] }

/-- Configuration `cfgA` after the GUI raises the fixed threshold to 900. -/
def cfgB : Config :=
  { cfgA with fixed_threshold := 900 }

/-- Concrete configuration with `update_rate_hz = 10` and
`history_length_seconds = 2` (horizon 20 sweeps), emitting every sweep. -/
def cfgH : Config :=
  { nbr_average := 1, threshold_type := .FIXED, fixed_threshold := 800,
    peak_sorting := .member .STRONGEST, history_length_s := 2, f := 10, r := [0] }

/-- State holding one main-peak history entry recorded at sweep index 5, about
to process the sweep with index 25. -/
def stateAt25 : ProcState :=
  { initState 1 with
      main_peak_hist_sweep_idx := [5], main_peak_hist_dist := [1], sweep_index := 25 }

/-- State holding one main-peak history entry recorded at sweep index 5, about
to process the sweep with index 26. -/
def stateAt26 : ProcState :=
  { stateAt25 with sweep_index := 26 }

/-- Concrete configuration averaging two sweeps. -/
def cfgTwo : Config :=
  { cfgA with nbr_average := 2 }

/-! ## Helper lemmas -/

theorem getD_replicate {α : Type} (a d : α) {n i : Nat} (h : i < n) :
    (List.replicate n a).getD i d = a := by
  rw [List.getD_eq_getElem _ _ (by simpa using h), List.getElem_replicate]

theorem process_of_not_ready (cfg : Config) (s : ProcState) (data : List ℚ)
    (ht : cfg.threshold_type = .FIXED)
    (hk : ¬ cfg.nbr_average ≤ ((s.sweeps_since_mean + 1 : ℕ) : ℚ)) :
    process cfg s data =
      .ok (noEmitStep cfg s data (List.replicate data.length (some cfg.fixed_threshold))) := by
  unfold process
  rw [ht]
  dsimp only [computeThreshold]
  rw [if_neg hk]

theorem process_of_ready (cfg : Config) (s : ProcState) (data : List ℚ) (peaks : List ℤ)
    (ht : cfg.threshold_type = .FIXED)
    (hk : cfg.nbr_average ≤ ((s.sweeps_since_mean + 1 : ℕ) : ℚ))
    (hpeaks : peaksPostprocess cfg (meanUpd s data)
      (List.replicate data.length (some cfg.fixed_threshold)) = .ok peaks) :
    process cfg s data =
      .ok (emitStep cfg s data (List.replicate data.length (some cfg.fixed_threshold)) peaks) := by
  unfold process
  rw [ht]
  dsimp only [computeThreshold]
  rw [if_pos hk, hpeaks]

theorem sort_peaks_member (peaks : List ℤ) (sweep r : List ℚ) (pol : PeakSorting) :
    sort_peaks peaks sweep r (.member pol) =
      .ok ((argsortKey (policyKeys pol peaks sweep r)).map (fun i => peaks.getD i 0)) := by
  cases pol <;> rfl

theorem peaksPostprocess_member_ok (cfg : Config) (mean : List ℚ)
    (threshold : List (Option ℚ)) (pol : PeakSorting)
    (hpol : cfg.peak_sorting = .member pol) :
    ∃ peaks, peaksPostprocess cfg mean threshold = .ok peaks := by
  unfold peaksPostprocess
  dsimp only
  split
  · rw [hpol]
    exact ⟨_, sort_peaks_member _ _ _ _⟩
  · exact ⟨_, rfl⟩

/-! ## Claim C8: all-zero sweep over a positive fixed threshold -/

theorem zipWith_gtOpt_zero (n : Nat) (t : ℚ) (ht : 0 < t) :
    List.zipWith gtOpt (List.replicate n 0) (List.replicate n (some t)) =
      List.replicate n false := by
  induction n with
  | zero => rfl
  | succ m ih =>
    simp only [List.replicate_succ, List.zipWith_cons_cons, ih]
    congr 1
    simp [gtOpt, not_lt.mpr (le_of_lt ht)]

theorem findPeaksLoop_zero (n : Nat) (t : ℚ) (ht : 0 < t) :
    ∀ fuel d, n - d ≤ fuel → 1 ≤ d →
      findPeaksLoop (List.replicate n 0) (List.replicate n (some t)) d = [] := by
  intro fuel
  induction fuel with
  | zero =>
    intro d hfuel hd
    have hcond : ¬ d < (List.replicate n (0:ℚ)).length - 1 := by
      simp only [List.length_replicate]
      omega
    rw [findPeaksLoop, dif_neg hcond]
  | succ m ih =>
    intro d hfuel hd
    rw [findPeaksLoop]
    by_cases hlt : d < (List.replicate n (0:ℚ)).length - 1
    · have hn : d < n - 1 := by simpa using hlt
      have h1 : ((List.replicate n (some t)).getD (d - 1) none).isNone = false := by
        rw [getD_replicate _ _ (by omega)]; rfl
      have h2 : ((List.replicate n (some t)).getD (d + 1) none).isNone = false := by
        rw [getD_replicate _ _ (by omega)]; rfl
      have h3 : leOpt ((List.replicate n (0:ℚ)).getD d 0)
          ((List.replicate n (some t)).getD d none) = true := by
        rw [getD_replicate _ _ (by omega), getD_replicate _ _ (by omega)]
        simp [leOpt, le_of_lt ht]
      simp only [dif_pos hlt, h1, h2, h3, Bool.false_eq_true, if_neg, not_false_iff, if_pos]
      exact ih (d + 2) (by omega) (by omega)
    · rw [dif_neg hlt]

/-- Claim C8: for every input length and every strictly positive fixed threshold,
an all-zero sweep yields no first crossing from
`find_first_point_above_threshold` and an empty peak list from `find_peaks`. -/
theorem C8_all_zero_sweep (n : Nat) (t : ℚ) (ht : 0 < t) :
    find_first_point_above_threshold (List.replicate n 0) (List.replicate n (some t)) = none ∧
    find_peaks (List.replicate n 0) (List.replicate n (some t)) = [] := by
  constructor
  · unfold find_first_point_above_threshold
    by_cases hall : (List.replicate n (some t)).all (fun x => x.isNone)
    · simp [hall]
    · simp only [hall, Bool.false_eq_true, if_neg, not_false_iff]
      rw [zipWith_gtOpt_zero n t ht]
      have : ¬ (List.replicate n false).any (fun b => b) = true := by
        simp [List.any_eq_true]
      simp [this]
  · unfold find_peaks
    by_cases hall : (List.replicate n (some t)).all (fun x => x.isNone)
    · simp [hall]
    · simp only [hall, Bool.false_eq_true, if_neg, not_false_iff]
      exact findPeaksLoop_zero n t ht (n - 1) 1 (by omega) (le_refl 1)

/-- Witness for C8 at `n = 4`, `t = 1`. -/
theorem C8_all_zero_sweep_witness :
    find_first_point_above_threshold (List.replicate 4 0) (List.replicate 4 (some 1)) = none ∧
    find_peaks (List.replicate 4 0) (List.replicate 4 (some 1)) = [] :=
  C8_all_zero_sweep 4 1 (by norm_num)

/-! ## Claims C2 and C10: peak merging -/

theorem merge_peaks_eq_of_none {merged : List ℤ} {radius : ℚ}
    (h : mergeRound merged radius = none) : merge_peaks merged radius = merged := by
  rw [merge_peaks]
  split
  · next next heq => rw [heq] at h; exact absurd h (by simp)
  · rfl

theorem merge_peaks_eq_of_some {merged next : List ℤ} {radius : ℚ}
    (h : mergeRound merged radius = some next) :
    merge_peaks merged radius = merge_peaks next radius := by
  rw [merge_peaks]
  split
  · next next' heq =>
    rw [heq] at h
    cases h
    rfl
  · next heq => rw [heq] at h; exact absurd h (by simp)

theorem le_listMax {l : List Nat} {x : Nat} (hx : x ∈ l) : x ≤ listMax l := by
  induction l with
  | nil => cases hx
  | cons a t ih =>
    rcases List.mem_cons.mp hx with rfl | hm
    · exact le_max_left _ _
    · exact le_trans (ih hm) (le_max_right _ _)

theorem listMax_le {l : List Nat} {b : Nat} (hb : ∀ x ∈ l, x ≤ b) : listMax l ≤ b := by
  induction l with
  | nil => exact Nat.zero_le b
  | cons a t ih =>
    exact max_le (hb a (List.mem_cons_self a t))
      (ih (fun x hx => hb x (List.mem_cons_of_mem a hx)))

/-- When position `i` carries the maximum neighbor count and every earlier position
carries a strictly smaller count, `np.argmax` picks `i`. -/
theorem npArgmax_eq_of_first_max {peaks : List ℤ} {radius : ℚ} {i : Nat}
    (hi : i < peaks.length)
    (hmax : ∀ p ∈ peaks, numNeighbors peaks p radius ≤ numNeighbors peaks (peaks.getD i 0) radius)
    (hfirst : ∀ j, j < i →
      numNeighbors peaks (peaks.getD j 0) radius < numNeighbors peaks (peaks.getD i 0) radius) :
    npArgmax (peaks.map (fun p => numNeighbors peaks p radius)) = i := by
  set counts := peaks.map (fun p => numNeighbors peaks p radius) with hcounts
  have hilen : i < counts.length := by simpa [hcounts] using hi
  have hci : counts[i] = numNeighbors peaks (peaks.getD i 0) radius := by
    simp only [hcounts, List.getElem_map]
    rw [List.getD_eq_getElem _ _ hi]
  have hmaxeq : listMax counts = counts[i] := by
    apply le_antisymm
    · apply listMax_le
      intro x hx
      rw [hcounts] at hx
      rcases List.mem_map.mp hx with ⟨p, hp, rfl⟩
      rw [hci]
      exact hmax p hp
    · exact le_listMax (List.getElem_mem hilen)
  unfold npArgmax
  rw [List.findIdx_eq hilen]
  constructor
  · simp [hmaxeq]
  · intro j hji
    have hjlen : j < peaks.length := lt_trans hji hi
    have hjc : j < counts.length := by simpa [hcounts] using hjlen
    have hcj : counts[j] = numNeighbors peaks (peaks.getD j 0) radius := by
      simp only [hcounts, List.getElem_map]
      rw [List.getD_eq_getElem _ _ hjlen]
    simp only [decide_eq_false_iff_not]
    rw [hcj, hmaxeq, hci]
    exact ne_of_lt (hfirst j hji)

/-- Claim C2: `merge_peaks` stops as soon as no peak has a neighbor besides
itself; otherwise one round removes every peak within the radius of the first
peak attaining the maximum neighbor count, appends the rounded mean of the
removed peaks, re-sorts ascending and repeats.  Two peaks one bin apart with
radius 3 collapse to their rounded mean; two peaks ten bins apart survive. -/
theorem C2_merge_peaks (peaks : List ℤ) (radius : ℚ) :
    ((∀ p ∈ peaks, numNeighbors peaks p radius ≤ 1) →
      merge_peaks peaks radius = peaks) ∧
    (∀ i, i < peaks.length →
      (∀ p ∈ peaks, numNeighbors peaks p radius ≤
        numNeighbors peaks (peaks.getD i 0) radius) →
      (∀ j, j < i → numNeighbors peaks (peaks.getD j 0) radius <
        numNeighbors peaks (peaks.getD i 0) radius) →
      1 < numNeighbors peaks (peaks.getD i 0) radius →
      merge_peaks peaks radius =
        merge_peaks (List.insertionSort (fun a b => a ≤ b)
          (peaks.filter (fun q => !(decide (|((q - peaks.getD i 0 : ℤ) : ℚ)| < radius))) ++
            [pyRound (listMean (peaks.filter
              (fun q => decide (|((q - peaks.getD i 0 : ℤ) : ℚ)| < radius))))])) radius) ∧
    (∀ p : ℤ, merge_peaks [p, p + 1] 3 = [pyRound ((((p + (p + 1) : ℤ)) : ℚ) / 2)]) ∧
    (∀ p : ℤ, merge_peaks [p, p + 10] 3 = [p, p + 10]) := by
  refine ⟨?_, ?_, ?_, ?_⟩
  · intro hall
    apply merge_peaks_eq_of_none
    unfold mergeRound
    have hle : (peaks.map (fun p => numNeighbors peaks p radius)).getD
        (npArgmax (peaks.map (fun p => numNeighbors peaks p radius))) 0 ≤ 1 := by
      set counts := peaks.map (fun p => numNeighbors peaks p radius) with hcounts
      by_cases hlen : npArgmax counts < counts.length
      · rw [List.getD_eq_getElem _ _ hlen]
        have hplen : npArgmax counts < peaks.length := by simpa [hcounts] using hlen
        simp only [hcounts, List.getElem_map]
        exact hall _ (List.getElem_mem hplen)
      · rw [List.getD_eq_default _ _ (le_of_not_lt hlen)]
        omega
    dsimp only
    rw [if_pos hle]
  · intro i hi hmax hfirst hgt
    have hargmax := npArgmax_eq_of_first_max hi hmax hfirst
    have hcnt : (peaks.map (fun p => numNeighbors peaks p radius)).getD i 0 =
        numNeighbors peaks (peaks.getD i 0) radius := by
      rw [List.getD_eq_getElem _ _ (by simpa using hi), List.getElem_map,
        List.getD_eq_getElem _ _ hi]
    have hsome : mergeRound peaks radius =
        some (List.insertionSort (fun a b => a ≤ b)
          (peaks.filter (fun q => !(decide (|((q - peaks.getD i 0 : ℤ) : ℚ)| < radius))) ++
            [pyRound (listMean (peaks.filter
              (fun q => decide (|((q - peaks.getD i 0 : ℤ) : ℚ)| < radius))))])) := by
      unfold mergeRound
      dsimp only
      rw [hargmax, hcnt, if_neg (by omega)]
      rw [foldl_erase_filter peaks (fun q => decide (|((q - peaks.getD i 0 : ℤ) : ℚ)| < radius))]
    exact merge_peaks_eq_of_some hsome
  · intro p
    have h1 : numNeighbors [p, p + 1] p 3 = 2 := by
      simp only [numNeighbors, List.filter_cons, List.filter_nil, sub_self,
        add_sub_cancel_left]
      norm_num
    have h2 : numNeighbors [p, p + 1] (p + 1) 3 = 2 := by
      simp only [numNeighbors, List.filter_cons, List.filter_nil, sub_self]
      have : p - (p + 1) = -1 := by ring
      rw [this]
      norm_num
    have hround : mergeRound [p, p + 1] 3 = some [pyRound (listMean [p, p + 1])] := by
      unfold mergeRound
      simp only [List.map_cons, List.map_nil, h1, h2]
      have hargm : npArgmax [2, 2] = 0 := by decide
      rw [hargm]
      simp only [List.getD_cons_zero, List.filter_cons, List.filter_nil, sub_self,
        add_sub_cancel_left]
      norm_num [List.erase_cons_head, List.insertionSort, List.orderedInsert]
    have hmean : pyRound (listMean [p, p + 1]) = pyRound ((((p + (p + 1) : ℤ)) : ℚ) / 2) := by
      congr 1
      simp only [listMean, List.sum_cons, List.sum_nil, List.length_cons, List.length_nil]
      push_cast
      ring
    rw [merge_peaks_eq_of_some hround, hmean]
    apply merge_peaks_eq_of_none
    unfold mergeRound
    have hle : ∀ idx, ([numNeighbors [pyRound ((((p + (p + 1) : ℤ)) : ℚ) / 2)]
        (pyRound ((((p + (p + 1) : ℤ)) : ℚ) / 2)) 3].getD idx 0) ≤ 1 := by
      intro idx
      cases idx with
      | zero =>
        rw [List.getD_cons_zero]
        exact List.length_filter_le _ _
      | succ m => rw [List.getD_eq_default] <;> simp
    dsimp only [List.map_cons, List.map_nil]
    rw [if_pos (hle _)]
  · intro p
    apply merge_peaks_eq_of_none
    unfold mergeRound
    have h1 : numNeighbors [p, p + 10] p 3 = 1 := by
      simp only [numNeighbors, List.filter_cons, List.filter_nil, sub_self,
        add_sub_cancel_left]
      norm_num
    have h2 : numNeighbors [p, p + 10] (p + 10) 3 = 1 := by
      simp only [numNeighbors, List.filter_cons, List.filter_nil, sub_self]
      have : p - (p + 10) = -10 := by ring
      rw [this]
      norm_num
    dsimp only [List.map_cons, List.map_nil]
    rw [h1, h2]
    have hargm : npArgmax [1, 1] = 0 := by decide
    rw [hargm]
    norm_num

/-- Witness for C2: the no-merge case on two distant peaks and one merging round
on `[1, 2]` with radius 3, choosing the first peak. -/
theorem C2_merge_peaks_witness :
    merge_peaks [0, 10] 3 = [0, 10] ∧
    merge_peaks [1, 2] 3 = merge_peaks (List.insertionSort (fun a b => a ≤ b)
      (List.filter (fun q => !(decide (|((q - ([1, 2] : List ℤ).getD 0 0 : ℤ) : ℚ)| < 3)))
          [1, 2] ++
        [pyRound (listMean (List.filter
          (fun q => decide (|((q - ([1, 2] : List ℤ).getD 0 0 : ℤ) : ℚ)| < 3)) [1, 2]))])) 3 :=
  ⟨(C2_merge_peaks [0, 10] 3).1 (by decide),
   (C2_merge_peaks [1, 2] 3).2.1 0 (by decide) (by decide)
     (by intro j hj; exact absurd hj (Nat.not_lt_zero j)) (by decide)⟩

/-- Claim C10: every merging round of `merge_peaks` strictly decreases the peak
count: the chosen peak has at least two peaks (itself included) within the merge
radius, all of them are removed, and exactly one mean peak is appended.  The
recursion of `merge_peaks` is well founded on the list length for this very
reason, so `merge_peaks` terminates on every finite input. -/
theorem C10_merge_round_decreases (peaks next : List ℤ) (radius : ℚ)
    (h : mergeRound peaks radius = some next) :
    ∃ removed, removed = numNeighbors peaks
        (peaks.getD (npArgmax (peaks.map (fun p => numNeighbors peaks p radius))) 0) radius ∧
      2 ≤ removed ∧ next.length + removed = peaks.length + 1 ∧
      next.length < peaks.length := by
  unfold mergeRound at h
  by_cases hc : (peaks.map (fun p => numNeighbors peaks p radius)).getD
      (npArgmax (peaks.map (fun p => numNeighbors peaks p radius))) 0 ≤ 1
  · rw [if_pos hc] at h
    exact absurd h (by simp)
  · rw [if_neg hc] at h
    set counts := peaks.map (fun p => numNeighbors peaks p radius) with hcounts
    set i := npArgmax counts with hi
    have hlt : i < counts.length := by
      by_contra hge
      exact hc (by rw [List.getD_eq_default _ _ (le_of_not_lt hge)]; omega)
    have hplen : i < peaks.length := by simpa [hcounts] using hlt
    set peak := peaks.getD i 0 with hpeak
    have hcount : counts.getD i 0 = numNeighbors peaks peak radius := by
      rw [List.getD_eq_getElem _ _ hlt]
      simp only [hcounts, List.getElem_map]
      rw [hpeak, List.getD_eq_getElem _ _ hplen]
    refine ⟨numNeighbors peaks peak radius, rfl, by omega, ?_, ?_⟩
    all_goals
      rw [← Option.some_inj] at h
      cases h
      rw [List.length_insertionSort, List.length_append,
        foldl_erase_filter peaks (fun q => decide (|((q - peak : ℤ) : ℚ)| < radius))]
      have hsplit := length_filter_add_length_filter_not peaks
        (fun q => decide (|((q - peak : ℤ) : ℚ)| < radius))
      have hrm : (peaks.filter (fun q => decide (|((q - peak : ℤ) : ℚ)| < radius))).length =
          numNeighbors peaks peak radius := rfl
      simp only [List.length_cons, List.length_nil]
      omega

/-- Witness for C10 at the round merging `[1, 2]` with radius 3 into `[2]`. -/
theorem C10_merge_round_decreases_witness :
    ∃ removed, removed = numNeighbors [1, 2]
        (([1, 2] : List ℤ).getD
          (npArgmax (([1, 2] : List ℤ).map (fun p => numNeighbors [1, 2] p 3))) 0) 3 ∧
      2 ≤ removed ∧ ([2] : List ℤ).length + removed = ([1, 2] : List ℤ).length + 1 ∧
      ([2] : List ℤ).length < ([1, 2] : List ℤ).length :=
  C10_merge_round_decreases [1, 2] [2] 3 (by
    norm_num [mergeRound, numNeighbors, npArgmax, listMax, listMean, pyRound,
      Rat.floor_eq_intFloor, List.filter, List.findIdx, List.findIdx.go,
      List.insertionSort, List.orderedInsert])

/-! ## Claim C6: unknown sorting policy / threshold type is a fatal error -/

/-- Claim C6: configuring an unknown peak-sorting policy makes `sort_peaks`
raise, and configuring a threshold type without a specified computation
(`RECORDED` or `CFAR`) makes the first `process` call abort with an error;
neither silently falls back to a default. -/
theorem C6_unknown_policy_fatal :
    (∀ (peaks : List ℤ) (sweep r : List ℚ),
      sort_peaks peaks sweep r .other = .error "Unknown peak sorting method") ∧
    (∀ (cfg : Config) (s : ProcState) (data : List ℚ),
      cfg.threshold_type ≠ .FIXED → ∃ e, process cfg s data = .error e) := by
  constructor
  · intro peaks sweep r
    rfl
  · intro cfg s data hne
    unfold process
    cases htt : cfg.threshold_type with
    | FIXED => exact absurd htt hne
    | RECORDED => exact ⟨"UnboundLocalError: threshold", by simp [computeThreshold]⟩
    | CFAR => exact ⟨"AttributeError: calculate_cfar_threshold", by simp [computeThreshold]⟩

/-- Witness for C6 at a concrete unknown-policy call and a concrete
`RECORDED`-threshold configuration. -/
theorem C6_unknown_policy_fatal_witness :
    sort_peaks [0] [1] [1] .other = .error "Unknown peak sorting method" ∧
    ∃ e, process
      { nbr_average := 1, threshold_type := .RECORDED, fixed_threshold := 800,
        peak_sorting := .member .STRONGEST, history_length_s := 10, f := 10, r := [1] }
      (initState 1) [0] = .error e :=
  ⟨C6_unknown_policy_fatal.1 [0] [1] [1],
   C6_unknown_policy_fatal.2 _ (initState 1) [0] (by decide)⟩

/-! ## Claim C3: history eviction -/

theorem evictOld_fst (cur : ℤ) (horizon : ℚ) (idx : List ℤ) (dist : List ℚ) :
    (evictOld cur horizon idx dist).1 =
      idx.dropWhile (fun i => decide (horizon < ((cur - i : ℤ) : ℚ))) := by
  induction idx generalizing dist with
  | nil => rfl
  | cons i is ih =>
    rw [evictOld, List.dropWhile_cons]
    simp only [decide_eq_true_eq]
    by_cases hc : horizon < ((cur - i : ℤ) : ℚ)
    · rw [if_pos hc, if_pos hc]
      exact ih dist.tail
    · rw [if_neg hc, if_neg hc]

theorem drop_tail_eq {α : Type} (l : List α) (k : Nat) : l.tail.drop k = l.drop (k + 1) := by
  cases l with
  | nil => simp
  | cons x xs => rfl

theorem evictOld_snd (cur : ℤ) (horizon : ℚ) (idx : List ℤ) (dist : List ℚ) :
    (evictOld cur horizon idx dist).2 =
      dist.drop (idx.length - (evictOld cur horizon idx dist).1.length) := by
  induction idx generalizing dist with
  | nil => rfl
  | cons i is ih =>
    by_cases hc : horizon < ((cur - i : ℤ) : ℚ)
    · have hlen : (evictOld cur horizon is dist.tail).1.length ≤ is.length := by
        rw [evictOld_fst]
        exact (List.dropWhile_sublist _).length_le
      rw [evictOld, if_pos hc, ih dist.tail]
      have harith : (i :: is).length - (evictOld cur horizon is dist.tail).1.length =
          (is.length - (evictOld cur horizon is dist.tail).1.length) + 1 := by
        simp only [List.length_cons]
        omega
      rw [harith, ← drop_tail_eq]
    · rw [evictOld, if_neg hc]
      simp

theorem find_peaks_short {sweep : List ℚ} (threshold : List (Option ℚ))
    (h : sweep.length ≤ 2) : find_peaks sweep threshold = [] := by
  unfold find_peaks
  split
  · rfl
  · rw [findPeaksLoop, dif_neg (by omega)]

theorem peaksPostprocess_short (cfg : Config) (mean : List ℚ)
    (threshold : List (Option ℚ)) (h : mean.length ≤ 2) :
    peaksPostprocess cfg mean threshold = .ok [] := by
  unfold peaksPostprocess
  dsimp only
  rw [find_peaks_short threshold h]
  norm_num

/-- Claim C3: on every emission sweep, each history sequence drops entries from
its head exactly while `sweep_index − entry > horizon` with
`horizon = history_length_s × update_rate_hz` (strict, so a boundary entry is
kept), and after the `process` call at sweep index 25 an entry recorded at sweep
index 5 with horizon 20 is still present while the call at sweep index 26 drops
it. -/
theorem C3_history_eviction :
    (∀ (cur : ℤ) (horizon : ℚ) (idx : List ℤ) (dist : List ℚ),
      (evictOld cur horizon idx dist).1 =
        idx.dropWhile (fun i => decide (horizon < ((cur - i : ℤ) : ℚ))) ∧
      (evictOld cur horizon idx dist).2 =
        dist.drop (idx.length - (evictOld cur horizon idx dist).1.length)) ∧
    (∀ (cur : ℤ) (horizon : ℚ) (i : ℤ) (is : List ℤ) (ds : List ℚ),
      ((cur - i : ℤ) : ℚ) = horizon → evictOld cur horizon (i :: is) ds = (i :: is, ds)) ∧
    (∀ (cfg : Config) (s : ProcState) (data : List ℚ) (peaks : List ℤ)
        (s2 : ProcState) (out : OutData),
      cfg.threshold_type = .FIXED →
      cfg.nbr_average ≤ ((s.sweeps_since_mean + 1 : ℕ) : ℚ) →
      peaksPostprocess cfg (meanUpd s data)
        (List.replicate data.length (some cfg.fixed_threshold)) = .ok peaks →
      process cfg s data = .ok (s2, out) →
      s2.main_peak_hist_sweep_idx =
        (if 0 < peaks.length then s.main_peak_hist_sweep_idx ++ [s.sweep_index]
          else s.main_peak_hist_sweep_idx).dropWhile
          (fun i => decide (cfg.history_length_s * cfg.f < ((s.sweep_index - i : ℤ) : ℚ))) ∧
      s2.minor_peaks_hist_sweep_idx =
        (s.minor_peaks_hist_sweep_idx ++
          List.replicate (peaks.length - 1) s.sweep_index).dropWhile
          (fun i => decide (cfg.history_length_s * cfg.f < ((s.sweep_index - i : ℤ) : ℚ))) ∧
      s2.above_thres_hist_sweep_idx =
        (match find_first_point_above_threshold (meanUpd s data)
            (List.replicate data.length (some cfg.fixed_threshold)) with
          | some _ => s.above_thres_hist_sweep_idx ++ [s.sweep_index]
          | none => s.above_thres_hist_sweep_idx).dropWhile
          (fun i => decide (cfg.history_length_s * cfg.f < ((s.sweep_index - i : ℤ) : ℚ)))) ∧
    ((process cfgH stateAt25 [0]).map (fun p => p.1.main_peak_hist_sweep_idx) = .ok [5] ∧
     (process cfgH stateAt26 [0]).map (fun p => p.1.main_peak_hist_sweep_idx) = .ok []) := by
  refine ⟨fun cur horizon idx dist => ⟨evictOld_fst cur horizon idx dist,
    evictOld_snd cur horizon idx dist⟩, ?_, ?_, ?_, ?_⟩
  · intro cur horizon i is ds hb
    rw [evictOld, if_neg (by rw [hb]; exact lt_irrefl horizon)]
  · intro cfg s data peaks s2 out ht hk hpeaks hproc
    rw [process_of_ready cfg s data peaks ht hk hpeaks] at hproc
    injection hproc with hpair
    have hs2 : s2 = (emitStep cfg s data
        (List.replicate data.length (some cfg.fixed_threshold)) peaks).1 := by
      rw [hpair]
    rw [hs2]
    unfold emitStep
    dsimp only
    exact ⟨evictOld_fst _ _ _ _, evictOld_fst _ _ _ _, evictOld_fst _ _ _ _⟩
  · have hmean : (meanUpd stateAt25 [0]).length ≤ 2 := by
      simp [meanUpd, stateAt25, initState]
    have hpeaks := peaksPostprocess_short cfgH (meanUpd stateAt25 [0])
      (List.replicate 1 (some 800)) hmean
    rw [process_of_ready cfgH stateAt25 [0] [] rfl (by norm_num [cfgH, stateAt25]) hpeaks]
    unfold emitStep
    dsimp only
    norm_num [evictOld, stateAt25, cfgH, initState, meanUpd,
      find_first_point_above_threshold, gtOpt, Except.map]
  · have hmean : (meanUpd stateAt26 [0]).length ≤ 2 := by
      simp [meanUpd, stateAt26, stateAt25, initState]
    have hpeaks := peaksPostprocess_short cfgH (meanUpd stateAt26 [0])
      (List.replicate 1 (some 800)) hmean
    rw [process_of_ready cfgH stateAt26 [0] [] rfl
      (by norm_num [cfgH, stateAt26, stateAt25]) hpeaks]
    unfold emitStep
    dsimp only
    norm_num [evictOld, stateAt26, stateAt25, cfgH, initState, meanUpd,
      find_first_point_above_threshold, gtOpt, Except.map]

/-- Witness for C3: the boundary-retention part applied at `cur = 25`,
`horizon = 20`, entry 5, and the emission part at the concrete call of `cfgH`
on `stateAt25`. -/
theorem C3_history_eviction_witness :
    evictOld 25 20 [5] [(1 : ℚ)] = ([5], [1]) ∧
    (emitStep cfgH stateAt25 [0] (List.replicate 1 (some 800)) []).1.main_peak_hist_sweep_idx =
      (if 0 < ([] : List ℤ).length then
          stateAt25.main_peak_hist_sweep_idx ++ [stateAt25.sweep_index]
        else stateAt25.main_peak_hist_sweep_idx).dropWhile
        (fun i => decide (cfgH.history_length_s * cfgH.f <
          ((stateAt25.sweep_index - i : ℤ) : ℚ))) :=
  ⟨C3_history_eviction.2.1 25 20 5 [] [1] (by norm_num),
   (C3_history_eviction.2.2.1 cfgH stateAt25 [0] []
      (emitStep cfgH stateAt25 [0] (List.replicate 1 (some 800)) []).1
      (emitStep cfgH stateAt25 [0] (List.replicate 1 (some 800)) []).2
      rfl (by norm_num [cfgH, stateAt25, initState])
      (peaksPostprocess_short cfgH (meanUpd stateAt25 [0])
        (List.replicate 1 (some 800)) (by simp [meanUpd, stateAt25, initState]))
      (process_of_ready cfgH stateAt25 [0] [] rfl (by norm_num [cfgH, stateAt25, initState])
        (peaksPostprocess_short cfgH (meanUpd stateAt25 [0])
          (List.replicate 1 (some 800)) (by simp [meanUpd, stateAt25, initState])))).1⟩

/-! ## Claim C4: emission cadence -/

/-- Claim C4: with a valid fixed-threshold configuration averaging `m ≥ 1`
sweeps, every `process` call increments `sweep_index` by exactly 1; a mean sweep
is emitted exactly on the call on which the count of accumulated sweeps reaches
`m`, and then the counter resets to 0 and the running-mean accumulator is
zeroed; over any run of calls the counter equals the number of calls modulo
`m`. -/
theorem C4_emission_cadence (cfg : Config) (m : ℕ) (pol : PeakSorting)
    (ht : cfg.threshold_type = .FIXED) (hpol : cfg.peak_sorting = .member pol)
    (hm : cfg.nbr_average = (m : ℚ)) (hm1 : 1 ≤ m) :
    (∀ (s : ProcState) (data : List ℚ), ∃ s2 out,
      process cfg s data = .ok (s2, out) ∧
      s2.sweep_index = s.sweep_index + 1 ∧
      (m ≤ s.sweeps_since_mean + 1 →
        s2.sweeps_since_mean = 0 ∧
        s2.current_mean_sweep = (meanUpd s data).map (fun _ => 0) ∧
        s2.last_mean_sweep = (meanUpd s data).map some ∧
        ∃ peaks, out.found_peaks = some peaks) ∧
      (s.sweeps_since_mean + 1 < m →
        s2.sweeps_since_mean = s.sweeps_since_mean + 1 ∧
        s2.last_mean_sweep = s.last_mean_sweep ∧
        out.found_peaks = none)) ∧
    (∀ (sweeps : List (List ℚ)) (s : ProcState), s.sweeps_since_mean < m →
      ∃ s2, processRun cfg s sweeps = .ok s2 ∧
        s2.sweeps_since_mean = (s.sweeps_since_mean + sweeps.length) % m ∧
        s2.sweep_index = s.sweep_index + sweeps.length) := by
  have stepA : ∀ (s : ProcState) (data : List ℚ), ∃ s2 out,
      process cfg s data = .ok (s2, out) ∧
      s2.sweep_index = s.sweep_index + 1 ∧
      (m ≤ s.sweeps_since_mean + 1 →
        s2.sweeps_since_mean = 0 ∧
        s2.current_mean_sweep = (meanUpd s data).map (fun _ => 0) ∧
        s2.last_mean_sweep = (meanUpd s data).map some ∧
        ∃ peaks, out.found_peaks = some peaks) ∧
      (s.sweeps_since_mean + 1 < m →
        s2.sweeps_since_mean = s.sweeps_since_mean + 1 ∧
        s2.last_mean_sweep = s.last_mean_sweep ∧
        out.found_peaks = none) := by
    intro s data
    by_cases hready : m ≤ s.sweeps_since_mean + 1
    · have hkq : cfg.nbr_average ≤ ((s.sweeps_since_mean + 1 : ℕ) : ℚ) := by
        rw [hm]
        exact_mod_cast hready
      obtain ⟨peaks, hpk⟩ := peaksPostprocess_member_ok cfg (meanUpd s data)
        (List.replicate data.length (some cfg.fixed_threshold)) pol hpol
      refine ⟨_, _, process_of_ready cfg s data peaks ht hkq hpk, rfl, ?_, ?_⟩
      · intro _
        exact ⟨rfl, rfl, rfl, ⟨peaks, rfl⟩⟩
      · intro hlt
        omega
    · have hkq : ¬ cfg.nbr_average ≤ ((s.sweeps_since_mean + 1 : ℕ) : ℚ) := by
        rw [hm]
        intro hcon
        exact hready (by exact_mod_cast hcon)
      refine ⟨_, _, process_of_not_ready cfg s data ht hkq, rfl, ?_, ?_⟩
      · intro hcon
        omega
      · intro _
        exact ⟨rfl, rfl, rfl⟩
  refine ⟨stepA, ?_⟩
  intro sweeps
  induction sweeps with
  | nil =>
    intro s hs
    exact ⟨s, rfl, by simpa using (Nat.mod_eq_of_lt hs).symm, by simp⟩
  | cons sw rest ih =>
    intro s hs
    by_cases hready : m ≤ s.sweeps_since_mean + 1
    · have hkq : cfg.nbr_average ≤ ((s.sweeps_since_mean + 1 : ℕ) : ℚ) := by
        rw [hm]
        exact_mod_cast hready
      obtain ⟨peaks, hpk⟩ := peaksPostprocess_member_ok cfg (meanUpd s sw)
        (List.replicate sw.length (some cfg.fixed_threshold)) pol hpol
      have hstep := process_of_ready cfg s sw peaks ht hkq hpk
      set s1 := (emitStep cfg s sw
        (List.replicate sw.length (some cfg.fixed_threshold)) peaks).1 with hs1
      have hk1 : s1.sweeps_since_mean = 0 := rfl
      have hi1 : s1.sweep_index = s.sweep_index + 1 := rfl
      obtain ⟨s2, hrun, hk2, hidx2⟩ := ih s1 (by omega)
      refine ⟨s2, ?_, ?_, ?_⟩
      · simp only [processRun, hstep]
        exact hrun
      · rw [hk2, hk1, List.length_cons]
        have harith : s.sweeps_since_mean + (rest.length + 1) = m + rest.length := by omega
        rw [harith, Nat.add_mod_left]
        simp
      · rw [hidx2, hi1, List.length_cons]
        push_cast
        ring
    · have hkq : ¬ cfg.nbr_average ≤ ((s.sweeps_since_mean + 1 : ℕ) : ℚ) := by
        rw [hm]
        intro hcon
        exact hready (by exact_mod_cast hcon)
      have hstep := process_of_not_ready cfg s sw ht hkq
      set s1 := (noEmitStep cfg s sw
        (List.replicate sw.length (some cfg.fixed_threshold))).1 with hs1
      have hk1 : s1.sweeps_since_mean = s.sweeps_since_mean + 1 := rfl
      have hi1 : s1.sweep_index = s.sweep_index + 1 := rfl
      obtain ⟨s2, hrun, hk2, hidx2⟩ := ih s1 (by omega)
      refine ⟨s2, ?_, ?_, ?_⟩
      · simp only [processRun, hstep]
        exact hrun
      · rw [hk2, hk1, List.length_cons]
        congr 1
        omega
      · rw [hidx2, hi1, List.length_cons]
        push_cast
        ring

/-- Witness for C4: three calls of the two-sweep-averaging configuration from
the initial state leave the counter at 3 mod 2 = 1 and advance the sweep index
by 3. -/
theorem C4_emission_cadence_witness :
    ∃ s2, processRun cfgTwo (initState 1) [[0], [0], [0]] = .ok s2 ∧
      s2.sweeps_since_mean =
        ((initState 1).sweeps_since_mean + ([[0], [0], [0]] : List (List ℚ)).length) % 2 ∧
      s2.sweep_index =
        (initState 1).sweep_index + ([[0], [0], [0]] : List (List ℚ)).length :=
  (C4_emission_cadence cfgTwo 2 .STRONGEST rfl rfl (by norm_num [cfgTwo, cfgA]) (by norm_num)).2
    [[0], [0], [0]] (initState 1) (by norm_num [initState])

/-! ## Claim C9: frame of a non-emission call -/

/-- Claim C9: a `process` call on which no averaged sweep is ready leaves the
three history sequences and the last completed mean sweep untouched, mutating
only the running-mean accumulator, the sweeps-since-mean counter and the sweep
index; the snapshot reports no peaks. -/
theorem C9_no_emission_frame (cfg : Config) (s : ProcState) (data : List ℚ)
    (ht : cfg.threshold_type = .FIXED)
    (hk : ¬ cfg.nbr_average ≤ ((s.sweeps_since_mean + 1 : ℕ) : ℚ)) :
    ∃ out, process cfg s data = .ok
      ({ s with
          current_mean_sweep := meanUpd s data
          sweeps_since_mean := s.sweeps_since_mean + 1
          sweep_index := s.sweep_index + 1 }, out) ∧
      out.found_peaks = none ∧
      out.last_mean_sweep = s.last_mean_sweep ∧
      out.main_peak_hist_dist = s.main_peak_hist_dist ∧
      out.minor_peaks_hist_dist = s.minor_peaks_hist_dist ∧
      out.above_thres_hist_dist = s.above_thres_hist_dist :=
  ⟨(noEmitStep cfg s data (List.replicate data.length (some cfg.fixed_threshold))).2,
   process_of_not_ready cfg s data ht hk, rfl, rfl, rfl, rfl, rfl⟩

/-- Witness for C9 at the three-sweep-averaging configuration on its first
call. -/
theorem C9_no_emission_frame_witness :
    ∃ out, process cfgA (initState 1) [0] = .ok
      ({ initState 1 with
          current_mean_sweep := meanUpd (initState 1) [0]
          sweeps_since_mean := (initState 1).sweeps_since_mean + 1
          sweep_index := (initState 1).sweep_index + 1 }, out) ∧
      out.found_peaks = none ∧
      out.last_mean_sweep = (initState 1).last_mean_sweep ∧
      out.main_peak_hist_dist = (initState 1).main_peak_hist_dist ∧
      out.minor_peaks_hist_dist = (initState 1).minor_peaks_hist_dist ∧
      out.above_thres_hist_dist = (initState 1).above_thres_hist_dist :=
  C9_no_emission_frame cfgA (initState 1) [0] rfl (by norm_num [cfgA, initState])

/-! ## Claim C7: the threshold field of the snapshot -/

/-- Counterexample to C7: two consecutive non-emitting calls of a
three-sweep-averaging configuration whose fixed threshold level is changed from
800 to 900 between the calls; neither call emits, yet the two snapshots carry
different threshold curves — the snapshot threshold is not carried from the most
recent emission. -/
theorem C7_counterexample :
    ∃ s1 out1 s2 out2,
      process cfgA (initState 1) [0] = .ok (s1, out1) ∧
      process cfgB s1 [0] = .ok (s2, out2) ∧
      out1.found_peaks = none ∧ out2.found_peaks = none ∧
      out1.threshold = [some 800] ∧ out2.threshold = [some 900] ∧
      out1.threshold ≠ out2.threshold := by
  refine ⟨_, _, _, _,
    process_of_not_ready cfgA (initState 1) [0] rfl (by norm_num [cfgA, initState]),
    process_of_not_ready cfgB _ [0] rfl
      (by norm_num [cfgB, cfgA, noEmitStep, initState]),
    rfl, rfl, rfl, rfl, ?_⟩
  show List.replicate 1 (some cfgA.fixed_threshold) ≠ List.replicate 1 (some cfgB.fixed_threshold)
  norm_num [cfgA, cfgB]

/-- Amended claim C7: the threshold field of every returned snapshot is
recomputed on that very call from the current configuration — with a fixed
threshold it equals the configured level on every bin, so a configuration
update between two calls changes the next snapshot immediately, whether or not
an emission lies in between. -/
theorem C7_threshold_recomputed (cfg : Config) (s : ProcState) (data : List ℚ)
    (s2 : ProcState) (out : OutData)
    (ht : cfg.threshold_type = .FIXED)
    (h : process cfg s data = .ok (s2, out)) :
    out.threshold = List.replicate data.length (some cfg.fixed_threshold) := by
  unfold process at h
  rw [ht] at h
  dsimp only [computeThreshold] at h
  by_cases hk : cfg.nbr_average ≤ ((s.sweeps_since_mean + 1 : ℕ) : ℚ)
  · rw [if_pos hk] at h
    cases hpp : peaksPostprocess cfg (meanUpd s data)
        (List.replicate data.length (some cfg.fixed_threshold)) with
    | error e =>
      rw [hpp] at h
      exact absurd h (by simp)
    | ok peaks =>
      rw [hpp] at h
      dsimp only at h
      injection h with hpair
      have hout : out = (emitStep cfg s data
          (List.replicate data.length (some cfg.fixed_threshold)) peaks).2 := by
        rw [hpair]
      rw [hout]
      rfl
  · rw [if_neg hk] at h
    injection h with hpair
    have hout : out = (noEmitStep cfg s data
        (List.replicate data.length (some cfg.fixed_threshold))).2 := by
      rw [hpair]
    rw [hout]
    rfl

/-- Witness for the amended C7 at the first call of the three-sweep-averaging
configuration. -/
theorem C7_threshold_recomputed_witness :
    (noEmitStep cfgA (initState 1) [0]
      (List.replicate 1 (some cfgA.fixed_threshold))).2.threshold =
      List.replicate ([(0 : ℚ)] : List ℚ).length (some cfgA.fixed_threshold) :=
  C7_threshold_recomputed cfgA (initState 1) [0] _ _ rfl
    (process_of_not_ready cfgA (initState 1) [0] rfl (by norm_num [cfgA, initState]))

/-! ## Claim C1: find_peaks on a single pulse over a flat threshold -/

theorem replicate_isNone_false {t : ℚ} {n i : Nat} (h : i < n) :
    ((List.replicate n (some t)).getD i none).isNone = false := by
  rw [getD_replicate _ _ h]
  rfl

theorem leOpt_replicate {t x : ℚ} {n i : Nat} (h : i < n) :
    leOpt x ((List.replicate n (some t)).getD i none) = decide (x ≤ t) := by
  rw [getD_replicate _ _ h]
  rfl

/-- Scan phase after the pulse: on the strictly falling tail every position is
skipped, so no further peak is reported. -/
theorem descendLoop (sweep : List ℚ) (t : ℚ) (s w : Nat) (hw1 : 1 ≤ s + w)
    (hfall : ∀ i, s + w - 1 ≤ i → i + 1 < sweep.length →
      sweep.getD (i + 1) 0 < sweep.getD i 0) :
    ∀ fuel d, sweep.length - d ≤ fuel → s + w ≤ d →
      findPeaksLoop sweep (List.replicate sweep.length (some t)) d = [] := by
  intro fuel
  induction fuel with
  | zero =>
    intro d hfuel hd
    rw [findPeaksLoop, dif_neg (by omega)]
  | succ m ih =>
    intro d hfuel hd
    by_cases hlt : d < sweep.length - 1
    · rw [findPeaksLoop, dif_pos hlt,
        replicate_isNone_false (show d - 1 < sweep.length by omega),
        replicate_isNone_false (show d + 1 < sweep.length by omega)]
      simp only [Bool.false_eq_true, if_neg, not_false_iff]
      by_cases hb3 : leOpt (sweep.getD d 0)
          ((List.replicate sweep.length (some t)).getD d none) = true
      · rw [if_pos hb3]
        exact ih (d + 2) (by omega) (by omega)
      · rw [if_neg hb3]
        by_cases hb4 : leOpt (sweep.getD (d - 1) 0)
            ((List.replicate sweep.length (some t)).getD (d - 1) none) = true
        · rw [if_pos hb4]
          exact ih (d + 1) (by omega) (by omega)
        · rw [if_neg hb4]
          have hdec : sweep.getD d 0 ≤ sweep.getD (d - 1) 0 := by
            have := hfall (d - 1) (by omega) (by omega)
            have hrw : d - 1 + 1 = d := by omega
            rw [hrw] at this
            exact le_of_lt this
          rw [if_pos hdec]
          exact ih (d + 1) (by omega) (by omega)
    · rw [findPeaksLoop, dif_neg hlt]

/-- Inner walk across the plateau: starting anywhere on the plateau the walk
continues over equal samples and reports the peak on reaching the first strictly
lower sample, which lies before the last bin and above the threshold. -/
theorem plateauWalk (sweep : List ℚ) (t : ℚ) (s w : Nat)
    (hw : 1 ≤ w) (hend : s + w + 2 ≤ sweep.length)
    (hplat : ∀ i, s ≤ i → i ≤ s + w - 1 → sweep.getD i 0 = sweep.getD s 0)
    (hfall1 : sweep.getD (s + w) 0 < sweep.getD (s + w - 1) 0)
    (habove : ∀ i, s ≤ i → i ≤ s + w → t < sweep.getD i 0) :
    ∀ fuel j, w - j ≤ fuel → 1 ≤ j → j ≤ w →
      peakWalk sweep (List.replicate sweep.length (some t)) s (s + j) =
        (some ((s : ℤ) + (Nat.ceil ((((w : ℕ) : ℚ) - 1) / 2) : ℕ)), s + w) := by
  have hsw : sweep.getD (s + w) 0 < sweep.getD s 0 := by
    have hpl := hplat (s + w - 1) (by omega) (by omega)
    rw [← hpl]
    exact hfall1
  intro fuel
  induction fuel with
  | zero =>
    intro j hfuel h1 h2
    have hjw : j = w := by omega
    subst hjw
    rw [peakWalk, dif_neg (by omega),
      if_neg (by rw [replicate_isNone_false (show s + j < sweep.length by omega)]; simp),
      if_neg (by
        rw [leOpt_replicate (show s + j < sweep.length by omega)]
        simp only [decide_eq_true_eq, not_le]
        exact habove (s + j) (by omega) (by omega)),
      if_neg (not_lt.mpr (le_of_lt hsw)), if_pos hsw]
    have hsub : ((s + j - s : ℕ) : ℚ) = ((j : ℕ) : ℚ) := by
      congr 1
      omega
    rw [hsub]
  | succ m ihm =>
    intro j hfuel h1 h2
    by_cases hjw : j = w
    · subst hjw
      rw [peakWalk, dif_neg (by omega),
        if_neg (by rw [replicate_isNone_false (show s + j < sweep.length by omega)]; simp),
        if_neg (by
          rw [leOpt_replicate (show s + j < sweep.length by omega)]
          simp only [decide_eq_true_eq, not_le]
          exact habove (s + j) (by omega) (by omega)),
        if_neg (not_lt.mpr (le_of_lt hsw)), if_pos hsw]
      have hsub : ((s + j - s : ℕ) : ℚ) = ((j : ℕ) : ℚ) := by
        congr 1
        omega
      rw [hsub]
    · have hjw2 : j < w := by omega
      have heq : sweep.getD (s + j) 0 = sweep.getD s 0 := hplat (s + j) (by omega) (by omega)
      rw [peakWalk, dif_neg (by omega),
        if_neg (by rw [replicate_isNone_false (show s + j < sweep.length by omega)]; simp),
        if_neg (by
          rw [leOpt_replicate (show s + j < sweep.length by omega)]
          simp only [decide_eq_true_eq, not_le]
          exact habove (s + j) (by omega) (by omega)),
        if_neg (by rw [heq]; exact lt_irrefl _),
        if_neg (by rw [heq]; exact lt_irrefl _)]
      have hnext : s + j + 1 = s + (j + 1) := by omega
      rw [hnext]
      exact ihm (j + 1) (by omega) (by omega) (by omega)

/-- Scan phase on the strictly rising flank above threshold: each candidate
below the plateau start is abandoned one step to the right, the candidate at the
plateau start yields the peak, and the scan resumes after the plateau where
`descendLoop` finds nothing further. -/
theorem climbLoop (sweep : List ℚ) (t : ℚ) (s w lo : Nat)
    (hw : 1 ≤ w) (hs : 1 ≤ s) (hend : s + w + 2 ≤ sweep.length)
    (hlo : lo ≤ s - 1)
    (hrise : ∀ i, i < s → sweep.getD i 0 < sweep.getD (i + 1) 0)
    (hplat : ∀ i, s ≤ i → i ≤ s + w - 1 → sweep.getD i 0 = sweep.getD s 0)
    (hfall : ∀ i, s + w - 1 ≤ i → i + 1 < sweep.length →
      sweep.getD (i + 1) 0 < sweep.getD i 0)
    (haboveR : ∀ i, lo ≤ i → i ≤ s + w → t < sweep.getD i 0) :
    ∀ fuel d, s - d ≤ fuel → lo + 1 ≤ d → d ≤ s →
      findPeaksLoop sweep (List.replicate sweep.length (some t)) d =
        [(s : ℤ) + (Nat.ceil ((((w : ℕ) : ℚ) - 1) / 2) : ℕ)] := by
  have hfall1 : sweep.getD (s + w) 0 < sweep.getD (s + w - 1) 0 := by
    have := hfall (s + w - 1) (by omega) (by omega)
    have hrw : s + w - 1 + 1 = s + w := by omega
    rw [hrw] at this
    exact this
  have habove : ∀ i, s ≤ i → i ≤ s + w → t < sweep.getD i 0 :=
    fun i h1 h2 => haboveR i (by omega) h2
  have hdescend := descendLoop sweep t s w (by omega) hfall sweep.length (s + w)
    (by omega) (le_refl _)
  intro fuel
  induction fuel with
  | zero =>
    intro d hfuel h1 h2
    have hds : d = s := by omega
    subst hds
    rw [findPeaksLoop, dif_pos (by omega),
      replicate_isNone_false (show d - 1 < sweep.length by omega),
      replicate_isNone_false (show d + 1 < sweep.length by omega)]
    simp only [Bool.false_eq_true, if_neg, not_false_iff]
    rw [if_neg (by
        rw [leOpt_replicate (show d < sweep.length by omega)]
        simp only [decide_eq_true_eq, not_le]
        exact habove d (le_refl _) (by omega)),
      if_neg (by
        rw [leOpt_replicate (show d - 1 < sweep.length by omega)]
        simp only [decide_eq_true_eq, not_le]
        exact haboveR (d - 1) (by omega) (by omega)),
      if_neg (by
        simp only [not_le]
        have := hrise (d - 1) (by omega)
        have hrw : d - 1 + 1 = d := by omega
        rw [hrw] at this
        exact this)]
    have hwalk := plateauWalk sweep t d w hw hend hplat hfall1 habove w 1
      (by omega) (le_refl 1) hw
    rw [show d + 1 = d + 1 from rfl] at hwalk
    rw [hwalk]
    dsimp only
    rw [hdescend]
    simp
  | succ m ihm =>
    intro d hfuel h1 h2
    by_cases hds : d = s
    · subst hds
      rw [findPeaksLoop, dif_pos (by omega),
        replicate_isNone_false (show d - 1 < sweep.length by omega),
        replicate_isNone_false (show d + 1 < sweep.length by omega)]
      simp only [Bool.false_eq_true, if_neg, not_false_iff]
      rw [if_neg (by
          rw [leOpt_replicate (show d < sweep.length by omega)]
          simp only [decide_eq_true_eq, not_le]
          exact habove d (le_refl _) (by omega)),
        if_neg (by
          rw [leOpt_replicate (show d - 1 < sweep.length by omega)]
          simp only [decide_eq_true_eq, not_le]
          exact haboveR (d - 1) (by omega) (by omega)),
        if_neg (by
          simp only [not_le]
          have := hrise (d - 1) (by omega)
          have hrw : d - 1 + 1 = d := by omega
          rw [hrw] at this
          exact this)]
      have hwalk := plateauWalk sweep t d w hw hend hplat hfall1 habove w 1
        (by omega) (le_refl 1) hw
      rw [hwalk]
      dsimp only
      rw [hdescend]
      simp
    · have hdlt : d < s := by omega
      rw [findPeaksLoop, dif_pos (by omega),
        replicate_isNone_false (show d - 1 < sweep.length by omega),
        replicate_isNone_false (show d + 1 < sweep.length by omega)]
      simp only [Bool.false_eq_true, if_neg, not_false_iff]
      rw [if_neg (by
          rw [leOpt_replicate (show d < sweep.length by omega)]
          simp only [decide_eq_true_eq, not_le]
          exact haboveR d (by omega) (by omega)),
        if_neg (by
          rw [leOpt_replicate (show d - 1 < sweep.length by omega)]
          simp only [decide_eq_true_eq, not_le]
          exact haboveR (d - 1) (by omega) (by omega)),
        if_neg (by
          simp only [not_le]
          have := hrise (d - 1) (by omega)
          have hrw : d - 1 + 1 = d := by omega
          rw [hrw] at this
          exact this)]
      have hwalk : peakWalk sweep (List.replicate sweep.length (some t)) d (d + 1) =
          (none, d + 1) := by
        rw [peakWalk, dif_neg (by omega),
          if_neg (by rw [replicate_isNone_false (show d + 1 < sweep.length by omega)]; simp),
          if_neg (by
            rw [leOpt_replicate (show d + 1 < sweep.length by omega)]
            simp only [decide_eq_true_eq, not_le]
            exact haboveR (d + 1) (by omega) (by omega)),
          if_pos (hrise d hdlt)]
      rw [hwalk]
      dsimp only
      rw [List.nil_append]
      exact ihm (d + 1) (by omega) (by omega) (by omega)

/-- Scan phase below the first above-threshold sample `lo`: positions whose
sample is at or below the threshold are skipped by two, position `lo` (whose
left neighbour is below threshold) by one, until the rising-flank phase is
reached. -/
theorem approachLoop (sweep : List ℚ) (t : ℚ) (s w lo : Nat)
    (hw : 1 ≤ w) (hs : 1 ≤ s) (hend : s + w + 2 ≤ sweep.length)
    (hlo : lo ≤ s - 1)
    (hrise : ∀ i, i < s → sweep.getD i 0 < sweep.getD (i + 1) 0)
    (hplat : ∀ i, s ≤ i → i ≤ s + w - 1 → sweep.getD i 0 = sweep.getD s 0)
    (hfall : ∀ i, s + w - 1 ≤ i → i + 1 < sweep.length →
      sweep.getD (i + 1) 0 < sweep.getD i 0)
    (haboveR : ∀ i, lo ≤ i → i ≤ s + w → t < sweep.getD i 0)
    (hbelow : ∀ j, j < lo → ¬ t < sweep.getD j 0) :
    ∀ fuel d, lo + 1 - d ≤ fuel → 1 ≤ d → d ≤ lo + 1 →
      findPeaksLoop sweep (List.replicate sweep.length (some t)) d =
        [(s : ℤ) + (Nat.ceil ((((w : ℕ) : ℚ) - 1) / 2) : ℕ)] := by
  intro fuel
  induction fuel with
  | zero =>
    intro d hfuel h1 h2
    have hd : d = lo + 1 := by omega
    subst hd
    exact climbLoop sweep t s w lo hw hs hend hlo hrise hplat hfall haboveR
      s (lo + 1) (by omega) (le_refl _) (by omega)
  | succ m ihm =>
    intro d hfuel h1 h2
    by_cases hd : d = lo + 1
    · subst hd
      exact climbLoop sweep t s w lo hw hs hend hlo hrise hplat hfall haboveR
        s (lo + 1) (by omega) (le_refl _) (by omega)
    · have hdlo : d ≤ lo := by omega
      rw [findPeaksLoop, dif_pos (by omega),
        replicate_isNone_false (show d - 1 < sweep.length by omega),
        replicate_isNone_false (show d + 1 < sweep.length by omega)]
      simp only [Bool.false_eq_true, if_neg, not_false_iff]
      by_cases hdeq : d = lo
      · rw [if_neg (by
            rw [leOpt_replicate (show d < sweep.length by omega)]
            simp only [decide_eq_true_eq, not_le]
            exact haboveR d (by omega) (by omega)),
          if_pos (by
            rw [leOpt_replicate (show d - 1 < sweep.length by omega)]
            simp only [decide_eq_true_eq]
            exact not_lt.mp (hbelow (d - 1) (by omega)))]
        exact ihm (d + 1) (by omega) (by omega) (by omega)
      · rw [if_pos (by
            rw [leOpt_replicate (show d < sweep.length by omega)]
            simp only [decide_eq_true_eq]
            exact not_lt.mp (hbelow d (by omega)))]
        exact ihm (d + 2) (by omega) (by omega) (by omega)

/-- Monotonicity of the rising flank. -/
theorem riseMono (sweep : List ℚ) (s : Nat)
    (hrise : ∀ i, i < s → sweep.getD i 0 < sweep.getD (i + 1) 0) :
    ∀ b, b ≤ s → ∀ a, a ≤ b → sweep.getD a 0 ≤ sweep.getD b 0 := by
  intro b
  induction b with
  | zero =>
    intro _ a ha
    have : a = 0 := Nat.le_zero.mp ha
    subst this
    exact le_refl _
  | succ n ihn =>
    intro hb a ha
    rcases Nat.lt_or_ge a (n + 1) with hlt | hge
    · exact le_trans (ihn (by omega) a (by omega)) (le_of_lt (hrise n (by omega)))
    · have : a = n + 1 := by omega
      subst this
      exact le_refl _

/-- Amended claim C1: a sweep that rises strictly to a flat plateau of width
`w ≥ 1` starting at bin `s ≥ 1` and falls strictly to the end, measured against
a flat unmasked threshold `t` such that the last rising sample `s−1` and the
first falling sample `s+w` are strictly above `t` (hence at least `w + 2 ≥ 3`
consecutive samples are strictly above it) and the first falling sample lies
strictly before the last bin (`s + w + 2 ≤ N`), makes `find_peaks` return
exactly one peak, at `s + ⌈(w−1)/2⌉` — for a triangular pulse (`w = 1`) the
pulse's midpoint bin `s`. -/
theorem C1_find_peaks_single_pulse (sweep : List ℚ) (t : ℚ) (s w : Nat)
    (hw : 1 ≤ w) (hs : 1 ≤ s) (hend : s + w + 2 ≤ sweep.length)
    (hrise : ∀ i, i < s → sweep.getD i 0 < sweep.getD (i + 1) 0)
    (hplat : ∀ i, s ≤ i → i ≤ s + w - 1 → sweep.getD i 0 = sweep.getD s 0)
    (hfall : ∀ i, s + w - 1 ≤ i → i + 1 < sweep.length →
      sweep.getD (i + 1) 0 < sweep.getD i 0)
    (habove1 : t < sweep.getD (s - 1) 0)
    (habove2 : t < sweep.getD (s + w) 0) :
    find_peaks sweep (List.replicate sweep.length (some t)) =
      [(s : ℤ) + (Nat.ceil ((((w : ℕ) : ℚ) - 1) / 2) : ℕ)] := by
  have hex : ∃ i, t < sweep.getD i 0 := ⟨s - 1, habove1⟩
  set lo := Nat.find hex with hlodef
  have hlo_above : t < sweep.getD lo 0 := Nat.find_spec hex
  have hlo : lo ≤ s - 1 := Nat.find_min' hex habove1
  have hbelow : ∀ j, j < lo → ¬ t < sweep.getD j 0 := fun j hj => Nat.find_min hex hj
  have haboveR : ∀ i, lo ≤ i → i ≤ s + w → t < sweep.getD i 0 := by
    intro i hi1 hi2
    rcases Nat.lt_or_ge i s with hcase | hcase
    · exact lt_of_lt_of_le hlo_above (riseMono sweep s hrise i (by omega) lo hi1)
    · rcases Nat.lt_or_ge i (s + w) with hcase2 | hcase2
      · rw [hplat i hcase (by omega)]
        calc t < sweep.getD lo 0 := hlo_above
          _ ≤ sweep.getD s 0 := riseMono sweep s hrise s (le_refl _) lo (by omega)
      · have : i = s + w := by omega
        subst this
        exact habove2
  have hne : ¬ (List.replicate sweep.length (some t)).all (fun x => x.isNone) = true := by
    have h0 : 0 < sweep.length := by omega
    simp only [List.all_eq_true, not_forall]
    refine ⟨some t, ?_, by simp⟩
    rw [List.mem_replicate]
    exact ⟨by omega, rfl⟩
  unfold find_peaks
  rw [if_neg hne]
  exact approachLoop sweep t s w lo hw hs hend hlo hrise hplat hfall haboveR hbelow
    (lo + 1) 1 (by omega) (le_refl 1) (by omega)

/-- Witness for C1 on the triangular pulse `[0, 2, 4, 6, 4, 2, 0]` over the flat
threshold 1: exactly one peak at the midpoint bin 3. -/
theorem C1_find_peaks_single_pulse_witness :
    find_peaks [0, 2, 4, 6, 4, 2, 0]
        (List.replicate ([0, 2, 4, 6, 4, 2, 0] : List ℚ).length (some 1)) =
      [(3 : ℤ) + (Nat.ceil ((((1 : ℕ) : ℚ) - 1) / 2) : ℕ)] :=
  C1_find_peaks_single_pulse [0, 2, 4, 6, 4, 2, 0] 1 3 1 (le_refl 1) (by norm_num)
    (by decide)
    (by decide)
    (by
      intro i h1 h2
      have hi : i = 3 := by omega
      subst hi
      rfl)
    (by
      intro i h1 h2
      have hlen : ([0, 2, 4, 6, 4, 2, 0] : List ℚ).length = 7 := rfl
      rw [hlen] at h2
      have h3 : i ≤ 5 := by omega
      interval_cases i <;> decide)
    (by decide) (by decide)

/-- Counterexample to C1 as stated: the sweep `[0, 2, 4, 6, 2]` is a single
pulse rising strictly to bin 3 (a plateau of width 1) and falling strictly
afterwards, and four consecutive samples (bins 1–4) lie strictly above the flat
threshold 1 — yet `find_peaks` returns no peak at all, rather than one peak at
bin `3 + ⌈(1−1)/2⌉ = 3`: the single strictly falling sample is the last bin,
and the inner walk's bounds check (`d_upper >= N − 1`) abandons a candidate
whose falling flank only starts at the last bin. -/
theorem C1_counterexample :
    (∀ i, i < 3 → ([0, 2, 4, 6, 2] : List ℚ).getD i 0 < [0, 2, 4, 6, 2].getD (i + 1) 0) ∧
    (∀ i, 3 ≤ i → i + 1 < 5 →
      ([0, 2, 4, 6, 2] : List ℚ).getD (i + 1) 0 < [0, 2, 4, 6, 2].getD i 0) ∧
    ((1 : ℚ) < ([0, 2, 4, 6, 2] : List ℚ).getD 1 0 ∧
      (1 : ℚ) < ([0, 2, 4, 6, 2] : List ℚ).getD 2 0 ∧
      (1 : ℚ) < ([0, 2, 4, 6, 2] : List ℚ).getD 3 0 ∧
      (1 : ℚ) < ([0, 2, 4, 6, 2] : List ℚ).getD 4 0) ∧
    find_peaks [0, 2, 4, 6, 2] (List.replicate 5 (some 1)) = [] := by
  refine ⟨by decide, ?_, by decide, ?_⟩
  · intro i h1 h2
    have hi : i = 3 := by omega
    subst hi
    decide
  · have w2 : peakWalk [0, 2, 4, 6, 2] (List.replicate 5 (some 1)) 2 3 = (none, 3) := by
      rw [peakWalk, dif_neg (by decide), if_neg (by decide), if_neg (by decide),
        if_pos (by decide)]
    have w3 : peakWalk [0, 2, 4, 6, 2] (List.replicate 5 (some 1)) 3 4 = (none, 4) := by
      rw [peakWalk, dif_pos (by decide)]
    have l4 : findPeaksLoop [0, 2, 4, 6, 2] (List.replicate 5 (some 1)) 4 = [] := by
      rw [findPeaksLoop, dif_neg (by decide)]
    have l3 : findPeaksLoop [0, 2, 4, 6, 2] (List.replicate 5 (some 1)) 3 = [] := by
      rw [findPeaksLoop, dif_pos (by decide), if_neg (by decide), if_neg (by decide),
        if_neg (by decide), if_neg (by decide), if_neg (by decide)]
      dsimp only
      rw [w3]
      dsimp only
      rw [l4]
      rfl
    have l2 : findPeaksLoop [0, 2, 4, 6, 2] (List.replicate 5 (some 1)) 2 = [] := by
      rw [findPeaksLoop, dif_pos (by decide), if_neg (by decide), if_neg (by decide),
        if_neg (by decide), if_neg (by decide), if_neg (by decide)]
      dsimp only
      rw [w2]
      dsimp only
      rw [l3]
      rfl
    have l1 : findPeaksLoop [0, 2, 4, 6, 2] (List.replicate 5 (some 1)) 1 = [] := by
      rw [findPeaksLoop, dif_pos (by decide), if_neg (by decide), if_neg (by decide),
        if_neg (by decide), if_pos (by decide)]
      exact l2
    unfold find_peaks
    rw [if_neg (by decide)]
    exact l1

end WaterLevel
